import Mathlib

/-!
Verification of the kicad-pcb-api S-expression codec and element parsers.

Part 1 (`KicadSE`) embeds the Python modules present under `src/`:
`parsers/utils.py`, `parsers/base.py`, `parsers/registry.py`,
`parsers/elements/metadata_parser.py`, `parsers/elements/via_parser.py`,
`parsers/elements/footprint_parser.py`, `core/factory.py`,
`core/validation.py`.  S-expression values mirror what `sexpdata` hands to
these modules: bare symbols, strings, ints, floats and nested lists.
Python exceptions are modelled with `Except`; machine floats are modelled
as rationals.

Part 2 (`Fmt`) models the formatter and document parser
(`core/pcb_formatter.py`, `core/pcb_parser.py`), which are not present
under `src/`; those definitions are modelled from the spec and from the
behavior pinned by the repository's own tests (`tests/test_formatter.py`,
`tests/test_parser.py`).
-/

namespace KicadSE

/-- Generic S-expression value as produced by `sexpdata` and consumed by the
element parsers: a bare symbol, a quoted string, an int, a float (modelled
as a rational), or a list. -/
inductive SExpr where
  | sym (s : String)
  | str (s : String)
  | int (n : Int)
  | float (q : ℚ)
  | list (l : List SExpr)

/-- Python exception kinds that the embedded code can raise. -/
inductive PyExc where
  | indexError
  | valueError
  | typeError
  | netError
deriving DecidableEq

/-- Python truthiness of an S-expression value: empty strings and symbols,
zero numbers and empty lists are falsy. -/
def pyTruthy : SExpr → Bool
  | .sym s => !(s = "")
  | .str s => !(s = "")
  | .int n => !(n = 0)
  | .float q => !(q = 0)
  | .list l => !l.isEmpty

/-- Python `str()` on an atom.  `sexpdata.Symbol` is a `str` subclass, so a
symbol stringifies to its own text.  Numeric and list `repr`s are not
relied upon by any claim; they are approximated by Lean `toString`. -/
def pyStr : SExpr → String
  | .sym s => s
  | .str s => s
  | .int n => toString n
  | .float q => toString q
  | .list _ => "[...]"

/-- Embeds `utils.get_symbol_name` / `BaseElementParser._get_symbol_name`: the name
of a value if it is a symbol, `None` otherwise. -/
def get_symbol_name : SExpr → Option String
  | .sym s => some s
  | _ => none

/-- One digit of a decimal literal. -/
def digitVal (c : Char) : ℚ := ((c.toNat - '0'.toNat : ℕ) : ℚ)

/-- Value of a digit run, accumulating left to right. -/
def digitsVal (acc : ℚ) : List Char → ℚ
  | [] => acc
  | c :: cs => digitsVal (10 * acc + digitVal c) cs

/-- Value of a fractional digit run scaled by the current place. -/
def fracVal (place : ℚ) : List Char → ℚ
  | [] => 0
  | c :: cs => place * digitVal c + fracVal (place / 10) cs

/-- Decimal string parser modelling Python `float(str)` on the plain
decimal literals the PCB format uses (optional sign, digits, optional
fraction; scientific notation does not occur in these files). -/
def parseDecimal (s : String) : Option ℚ :=
  let step : List Char → Option ℚ := fun body =>
    let ip := body.takeWhile Char.isDigit
    let rest := body.dropWhile Char.isDigit
    match rest with
    | [] => if ip.isEmpty then none else some (digitsVal 0 ip)
    | '.' :: fp =>
        if (ip.isEmpty && fp.isEmpty) || !fp.all Char.isDigit then none
        else some (digitsVal 0 ip + fracVal (1 / 10) fp)
    | _ => none
  match s.data with
  | [] => none
  | '-' :: body => (step body).map Neg.neg
  | '+' :: body => step body
  | body => step body

/-- Python `float()` applied to an S-expression atom: ints and floats
convert to their value, strings and symbols are parsed as decimal
literals (symbols are `str` subclasses), lists raise `TypeError`. -/
def toFloat : SExpr → Except PyExc ℚ
  | .int n => .ok (n : ℚ)
  | .float q => .ok q
  | .str s => match parseDecimal s with
      | some q => .ok q
      | none => .error .valueError
  | .sym s => match parseDecimal s with
      | some q => .ok q
      | none => .error .valueError
  | .list _ => .error .typeError

/-- Embeds `utils.find_element` / `BaseElementParser._find_element`: scan the list
for a nested list whose first item is a symbol with the wanted name.  The
Python body evaluates `item[0]`, which raises `IndexError` when `item` is
an empty list. -/
def find_element : List SExpr → String → Except PyExc (Option SExpr)
  | [], _ => .ok none
  | item :: rest, name =>
    match item with
    | .list [] => .error .indexError
    | .list (h :: _) =>
        if get_symbol_name h = some name then .ok (some item)
        else find_element rest name
    | _ => find_element rest name

/-- Whether a value is the empty list (the input shape on which
`find_element` raises). -/
def isEmptyList : SExpr → Bool
  | .list [] => true
  | _ => false

/-- Whether an item is a nested list whose leading symbol is `name` (the
match condition of `find_element`, on items where it does not raise). -/
def headTagIs (name : String) : SExpr → Bool
  | .list (h :: _) => get_symbol_name h = some name
  | _ => false

/-- Modelled from the spec: the `Net` record of `core/types.py`, which is
not present under `src/`.  Fields hold the raw values the parser assigns
(`Net(number=element[1], name=element[2])`). -/
structure Net where
  number : SExpr
  name : SExpr

/-- Python `== 0` on an S-expression atom (the net-number check). -/
def isZeroInt : SExpr → Bool
  | .int 0 => true
  | _ => false

/-- Modelled from the spec: constructing a `Net` value.  `core/types.py` is
absent from `src/`; per the spec, "attempting to construct a
Net(number=0, name=non-empty) is rejected", mirroring the check of
`validation.validate_net`. -/
def mkNet (number name : SExpr) : Except PyExc Net :=
  if isZeroInt number && pyTruthy name then .error .netError
  else .ok ⟨number, name⟩

/-- Embeds `validation.validate_net`: rejects negative net numbers and a truthy
name on net 0. -/
def validate_net (net : Int) (net_name : Option String) : Except PyExc Unit :=
  if net < 0 then .error .netError
  else if net = 0 && (match net_name with | some s => !(s = "") | none => false) then
    .error .netError
  else .ok ()

/-- Embeds `NetParser.parse_element` (`metadata_parser.py`): arity check, then
construct the `Net` from positions 1 and 2. -/
def netParseElement (element : List SExpr) : Except PyExc (Option Net) :=
  match element with
  | _ :: n :: s :: _ => (mkNet n s).map some
  | _ => .ok none

/-- A 2D point in millimeters (`core/types.py` `Point`, fields only). -/
structure Point where
  x : ℚ
  y : ℚ
deriving DecidableEq

/-- The `Via` record fields assigned by `via_parser.py` and
`core/factory.py` (`core/types.py` itself is absent from `src/`; the
fields are those the code in `src/` reads and writes). -/
structure Via where
  position : Point
  size : ℚ
  drill : ℚ
  layers : List String
  net : Option SExpr := none
  net_name : Option SExpr := none
  uuid : SExpr := .str ""

/-- The layer list a via receives from its `layers` sub-element:
`[str(l) for l in layers_elem[1:]]` when present, the through-hole pair
`["F.Cu", "B.Cu"]` when absent (`via_parser.py`). -/
def viaLayersOf (layersE : Option SExpr) : List String :=
  match layersE with
  | some (.list (_ :: ls)) => ls.map pyStr
  | some _ => []
  | none => ["F.Cu", "B.Cu"]

/-- Via size: `float(size_elem[1]) if size_elem else 0.8`
(`via_parser.py`); a present but argument-less sub-element raises
`IndexError`. -/
def viaSizeOf : Option SExpr → Except PyExc ℚ
  | some (.list (_ :: sv :: _)) => toFloat sv
  | some _ => .error .indexError
  | none => pure (8 / 10 : ℚ)

/-- Via drill: `float(drill_elem[1]) if drill_elem else 0.4`
(`via_parser.py`). -/
def viaDrillOf : Option SExpr → Except PyExc ℚ
  | some (.list (_ :: dv :: _)) => toFloat dv
  | some _ => .error .indexError
  | none => pure (4 / 10 : ℚ)

/-- Via net: `via.net = net_elem[1]` when the sub-element is present
(`via_parser.py`). -/
def viaNetOf : Option SExpr → Except PyExc (Option SExpr)
  | some (.list (_ :: nv :: _)) => pure (some nv)
  | some _ => .error .indexError
  | none => pure none

/-- Embeds `uuid_elem[1] if uuid_elem else str(uuid.uuid4())`, the uuid pattern
shared by the element parsers; `fresh` is the generated string. -/
def elemUuidOf (fresh : String) : Option SExpr → Except PyExc SExpr
  | some (.list (_ :: uv :: _)) => pure uv
  | some _ => .error .indexError
  | none => pure (SExpr.str fresh)

/-- Embeds `ViaParser.parse_element` (`via_parser.py`).  `fresh` stands for the
`uuid.uuid4()` string generated when the element carries no `uuid`.
Failures of `float()` and out-of-range indexing are propagated as
exceptions, exactly as in the Python body. -/
def viaParseElement (fresh : String) (element : List SExpr) :
    Except PyExc (Option Via) := do
  let atE ← find_element element "at"
  match atE with
  | some (.list (_ :: ax :: ay :: _)) =>
    let x ← toFloat ax
    let y ← toFloat ay
    let sizeE ← find_element element "size"
    let size ← viaSizeOf sizeE
    let drillE ← find_element element "drill"
    let drill ← viaDrillOf drillE
    let layersE ← find_element element "layers"
    let layers := viaLayersOf layersE
    let netE ← find_element element "net"
    let net ← viaNetOf netE
    let uuidE ← find_element element "uuid"
    let uuid ← elemUuidOf fresh uuidE
    pure (some { position := ⟨x, y⟩, size := size, drill := drill,
                 layers := layers, net := net, uuid := uuid })
  | _ => pure none

/-- Embeds `PCBElementFactory.create_via` (`core/factory.py`): default layer span
is the through-hole pair. -/
def create_via (position : Point) (size drill : ℚ)
    (layers : Option (List String)) (net : Option Int)
    (net_name : Option String) (fresh : String) : Via :=
  let ls := match layers with
    | none => ["F.Cu", "B.Cu"]
    | some l => l
  { position := position, size := size, drill := drill, layers := ls,
    net := net.map .int, net_name := net_name.map .str, uuid := .str fresh }

/-- Embeds `PCBElementFactory.create_through_via`. -/
def create_through_via (position : Point) (size drill : ℚ)
    (fresh : String) : Via :=
  create_via position size drill (some ["F.Cu", "B.Cu"]) none none fresh

/-- Embeds `PCBElementFactory.create_blind_via`: the layer span starts at
`from_layer` and appends `to_layer` only when the two differ. -/
def create_blind_via (position : Point) (from_layer to_layer : String)
    (size drill : ℚ) (fresh : String) : Via :=
  let layers := if to_layer = from_layer then [from_layer]
                else [from_layer, to_layer]
  create_via position size drill (some layers) none none fresh

/-- Pad drill specification: circular diameter or the oval
`(shape, width, height)` record of `footprint_parser.py`. -/
inductive Drill where
  | circle (d : ℚ)
  | oval (width height : ℚ)
deriving DecidableEq

/-- The `Pad` record fields assigned by `FootprintParser._parse_pad`. -/
structure Pad where
  number : String
  type : SExpr
  shape : SExpr
  position : Point
  size : ℚ × ℚ
  layers : List String
  drill : Option Drill := none
  net : Option SExpr := none
  net_name : Option SExpr := none
  roundrect_rr : Option ℚ := none
  uuid : SExpr := .str ""

/-- The drill branch of `FootprintParser._parse_pad`: absent → no drill;
`(drill oval W H)` (four or more items with the symbol `oval` in second
position) → the oval record; otherwise `float(drill_elem[1])` → circular,
raising `IndexError` on a bare `(drill)`. -/
def padDrillOf : Option SExpr → Except PyExc (Option Drill)
  | none => pure none
  | some (.list (_ :: d1 :: d2 :: d3 :: _)) =>
      if pyStr d1 = "oval" then do
        let w ← toFloat d2
        let h ← toFloat d3
        pure (some (Drill.oval w h))
      else do
        let c ← toFloat d1
        pure (some (Drill.circle c))
  | some (.list (_ :: d1 :: rest)) => do
      let _ := rest
      let c ← toFloat d1
      pure (some (Drill.circle c))
  | some _ => .error .indexError

/-- Pad position: `Point(float(at[1]), float(at[2]))` when the `at`
sub-element has at least two arguments, `Point(0, 0)` otherwise
(`footprint_parser.py`). -/
def padPosOf : Option SExpr → Except PyExc Point
  | some (.list (_ :: ax :: ay :: _)) => do
      let x ← toFloat ax
      let y ← toFloat ay
      pure (Point.mk x y)
  | _ => pure (Point.mk 0 0)

/-- Pad size: the two floats of the `size` sub-element, `(1.0, 1.0)`
otherwise (`footprint_parser.py`). -/
def padSizeOf : Option SExpr → Except PyExc (ℚ × ℚ)
  | some (.list (_ :: sx :: sy :: _)) => do
      let w ← toFloat sx
      let h ← toFloat sy
      pure ((w, h) : ℚ × ℚ)
  | _ => pure ((1, 1) : ℚ × ℚ)

/-- Pad layers: `[str(l) for l in layers_elem[1:]]` when present, the
empty list otherwise (`footprint_parser.py`). -/
def padLayersOf : Option SExpr → List String
  | some (.list (_ :: ls)) => ls.map pyStr
  | _ => []

/-- Pad net: `(net_elem[1], net_elem[2])` when the `net` sub-element has
two arguments (`footprint_parser.py`). -/
def padNetOf : Option SExpr → Option SExpr × Option SExpr
  | some (.list (_ :: nv :: nn :: _)) => (some nv, some nn)
  | _ => (none, none)

/-- Pad roundrect ratio: `float(rratio_elem[1])` when present
(`footprint_parser.py`); a bare sub-element raises `IndexError`. -/
def padRrOf : Option SExpr → Except PyExc (Option ℚ)
  | some (.list (_ :: rv :: _)) => (toFloat rv).map some
  | some _ => .error .indexError
  | none => pure none

/-- Embeds `FootprintParser._parse_pad` (`footprint_parser.py`): arity check on
the positional arguments, defaulted position/size/layers, the drill
branch (`oval` with two further values, else circular), optional net,
roundrect ratio and uuid.  `fresh` models the generated uuid string. -/
def parse_pad (fresh : String) (element : List SExpr) :
    Except PyExc (Option Pad) :=
  match element with
  | _ :: e1 :: e2 :: e3 :: _ => do
    let number := pyStr e1
    let atE ← find_element element "at"
    let position ← padPosOf atE
    let sizeE ← find_element element "size"
    let size ← padSizeOf sizeE
    let layersE ← find_element element "layers"
    let layers := padLayersOf layersE
    let drillE ← find_element element "drill"
    let drill ← padDrillOf drillE
    let netE ← find_element element "net"
    let netPair := padNetOf netE
    let rrE ← find_element element "roundrect_rratio"
    let rr ← padRrOf rrE
    let uuidE ← find_element element "uuid"
    let uuid ← elemUuidOf fresh uuidE
    pure (some { number := number, type := e2, shape := e3,
                 position := position, size := size, layers := layers,
                 drill := drill, net := netPair.1, net_name := netPair.2,
                 roundrect_rr := rr, uuid := uuid })
  | _ => .ok none

/-- An element parser (`parsers/base.py` `BaseElementParser`): the element
type it handles and its `parse_element` body, which may raise. -/
structure EParser (α : Type) where
  element_type : String
  parse_element : List SExpr → Except PyExc (Option α)

/-- Embeds `BaseElementParser.can_parse`: the element is a non-empty list whose
first item is a symbol with the handled name. -/
def EParser.can_parse (p : EParser α) (element : List SExpr) : Bool :=
  match element with
  | [] => false
  | h :: _ => get_symbol_name h = some p.element_type

/-- Embeds `BaseElementParser.parse`: the error-recovery wrapper.  A type
mismatch yields `None`; any exception raised by `parse_element` is caught
and turned into `None` (logged in the original), so one malformed element
never propagates a failure. -/
def EParser.parse (p : EParser α) (element : List SExpr) : Option α :=
  if p.can_parse element then
    match p.parse_element element with
    | .ok r => r
    | .error _ => none
  else none

/-- Embeds `ParserRegistry` (`parsers/registry.py`): the tag-to-parser dict and
the optional fallback parser.  The dict is modelled as a lookup
function. -/
structure Registry (α : Type) where
  parsers : String → Option (EParser α)
  fallback : Option (EParser α)

/-- The empty registry (`ParserRegistry.__init__`). -/
def Registry.empty : Registry α := ⟨fun _ => none, none⟩

/-- Embeds `ParserRegistry.register`: stores the parser under the tag.  Despite
the docstring advertising `ValueError`, an existing registration is only
logged and then replaced — the function never raises. -/
def Registry.register (reg : Registry α) (element_type : String)
    (parser : EParser α) : Registry α :=
  { reg with parsers := fun s =>
      if s = element_type then some parser else reg.parsers s }

/-- The dispatch key of `ParserRegistry.parse_element`:
`str(element[0]) if element[0] else None`, then the `if not
element_type_str` guard. -/
def dispatchKey (h : SExpr) : Option String :=
  if pyTruthy h then
    let s := pyStr h
    if s = "" then none else some s
  else none

/-- Embeds `ParserRegistry.parse_element`: reject non-lists and empty lists, look
up the parser for `str(element[0])`, fall back when none is registered,
return `None` when no parser is available. -/
def Registry.parse_element (reg : Registry α) (element : SExpr) : Option α :=
  match element with
  | .list [] => none
  | .list (h :: t) =>
    match dispatchKey h with
    | none => none
    | some s =>
      match reg.parsers s with
      | some p => p.parse (h :: t)
      | none =>
        match reg.fallback with
        | some fp => fp.parse (h :: t)
        | none => none
  | _ => none

/-- Embeds `ParserRegistry.parse_elements`: the collection loop — parse each
element, keep the non-`None` results in order. -/
def Registry.parse_elements (reg : Registry α) : List SExpr → List α
  | [] => []
  | e :: rest =>
    match reg.parse_element e with
    | some r => r :: reg.parse_elements rest
    | none => reg.parse_elements rest

/-- The net parser instance (`NetParser`), as registered for tag
`"net"`. -/
def netParser : EParser Net := ⟨"net", netParseElement⟩

/-- The via parser instance (`ViaParser`) with a fixed generated-uuid
string. -/
def viaParser (fresh : String) : EParser Via := ⟨"via", viaParseElement fresh⟩

end KicadSE

namespace Fmt

/-!
Modelled from the spec: the generic value model, formatter
(`core/pcb_formatter.py`) and document reader (`core/pcb_parser.py`) are
not present under `src/`.  The definitions below follow the spec (§3,
§4.1, §4.3–§4.5) and the behavior pinned by the repository's tests:
`test_format_empty_list` (an empty list renders as `()`, no error),
`test_format_symbol_vs_string`, `test_format_string_unquoted_keyword`,
and `test_parse_invalid_format` (a document whose root tag is not
`kicad_pcb` raises `ValueError` with message "Invalid KiCad PCB format").
Numbers carry their source text, so unmodified numerals re-render with
the digits they were read with (spec §3); escape sequences inside quoted
strings are not modelled (the reference files use none).
-/

/-- Generic value (spec §3): bare symbol, quoted string, number (stored as
its literal text), boolean, or list. -/
inductive Value where
  | sym (s : String)
  | str (s : String)
  | num (t : String)
  | bool (b : Bool)
  | list (l : List Value)

/-- Modelled from the spec (§4.4): the curated keyword table of bare
identifiers, pinned by `test_format_string_unquoted_keyword` (`yes`,
`no`, `signal`, `setup` are bare) and `test_format_string_quoted`
(`F.Cu`, `Edge.Cuts`, arbitrary text are quoted). -/
def keywordTable : List String :=
  ["yes", "no", "signal", "user", "setup", "smd", "thru_hole",
   "np_thru_hole", "rect", "circle", "oval", "roundrect", "solid",
   "dashed", "default", "edge", "none", "not_allowed", "allowed",
   "front", "back", "power", "mixed", "jumper"]

/-- Embeds `is_bare_keyword` (spec §4.4). -/
def is_bare_keyword (s : String) : Bool := keywordTable.contains s

/-- Modelled from the spec (§4.3): the curated table of tags whose
children always render on one line. -/
def inlineTags : List String :=
  ["at", "size", "layers", "start", "end", "net", "stroke", "xy",
   "width", "type", "drill", "layer", "uuid", "version", "generator",
   "generator_version", "paper", "thickness", "legacy_teardrops",
   "hatch", "clearance", "min_thickness", "filled_areas_thickness",
   "thermal_gap", "thermal_bridge_width", "connect_pads", "fill",
   "attr", "descr", "tags", "path", "roundrect_rratio", "justify",
   "embedded_fonts", "offset", "scale", "rotate"]

/-- Embeds `is_inline` (spec §4.3), applied to the children of a list: the
classification reads the leading symbol. -/
def inlineHead : List Value → Bool
  | .sym t :: _ => inlineTags.contains t
  | _ => false

mutual
/-- Render an atom or a whole list on a single line (formatter rules 1-4,
spec §4.5). -/
def rInline : Value → List Char
  | .sym s => s.data
  | .num t => t.data
  | .str s => if is_bare_keyword s then s.data else '"' :: s.data ++ ['"']
  | .bool b => if b then "yes".data else "no".data
  | .list l => '(' :: rIList l ++ [')']
def rIList : List Value → List Char
  | [] => []
  | [v] => rInline v
  | v :: vs => rInline v ++ ' ' :: rIList vs
end

/-- Two-space indentation unit (`PCBFormatter.indent_str`). -/
def indentC (n : Nat) : List Char := List.replicate (2 * n) ' '

mutual
/-- Render at an indentation level: atoms and inline-classified lists on
one line, other lists in block layout with one child per line and the
closing parenthesis aligned under the opening one (formatter rules 4-5,
spec §4.5). -/
def rAt : Nat → Value → List Char
  | _, .sym s => s.data
  | _, .num t => t.data
  | _, .str s => if is_bare_keyword s then s.data else '"' :: s.data ++ ['"']
  | _, .bool b => if b then "yes".data else "no".data
  | ind, .list l => if inlineHead l then rInline (.list l) else rBlock ind l
def rBlock : Nat → List Value → List Char
  | _, [] => ['(', ')']
  | ind, h :: t =>
      '(' :: rInline h ++ rChildren (ind + 1) t ++ '\n' :: indentC ind ++ [')']
def rChildren : Nat → List Value → List Char
  | _, [] => []
  | ind, v :: vs => '\n' :: indentC ind ++ rAt ind v ++ rChildren ind vs
end

/-- Embeds `PCBFormatter.format`: top-level rendering, indentation starting at
zero (formatter rule 7). -/
def format (v : Value) : String := ⟨rAt 0 v⟩

/-- Whitespace characters skipped by the reader. -/
def isWsChar (c : Char) : Bool := c = ' ' || c = '\n' || c = '\t' || c = '\r'

/-- Characters that may appear in a bare token: anything that is not
whitespace, a parenthesis or a double quote. -/
def isBareChar (c : Char) : Bool :=
  !(isWsChar c || c = '(' || c = ')' || c = '"')

/-- Characters allowed inside a quoted string in this model: anything but
the closing quote and the escape character. -/
def isStrChar (c : Char) : Bool := !(c = '"' || c = '\\')

/-- Digits-dot body of a numeric token. -/
def numBody (l : List Char) : Bool :=
  let ip := l.takeWhile Char.isDigit
  let rest := l.dropWhile Char.isDigit
  match rest with
  | [] => !ip.isEmpty
  | '.' :: fp => (!ip.isEmpty || !fp.isEmpty) && fp.all Char.isDigit
  | _ => false

/-- Numeric token grammar (spec §4.1: optional sign, digits, optional
decimal point; scientific notation does not occur in these files,
spec §6). -/
def isNumeric : List Char → Bool
  | [] => false
  | c :: cs => if c = '-' || c = '+' then numBody cs else numBody (c :: cs)

/-- Reader tokens: parentheses, bare tokens, quoted strings. -/
inductive Token where
  | lp
  | rp
  | bare (s : String)
  | quoted (s : String)
deriving DecidableEq

/-- Reader error kinds (spec §4.1/§7: unbalanced parentheses, text not
forming a single top-level list). -/
inductive RErr where
  | unterminated
  | unbalanced
  | noTopLevelList
  | trailing
  | fuel
deriving DecidableEq

/-- Scan a quoted string up to the closing quote. -/
def strSpan : List Char → Option (List Char × List Char)
  | [] => none
  | c :: cs =>
    if c = '"' then some ([], cs)
    else if c = '\\' then none
    else match strSpan cs with
      | none => none
      | some (a, r) => some (c :: a, r)

/-- Fuelled tokenizer: skip whitespace, emit parentheses, scan quoted
strings, take maximal runs of bare characters. -/
def tokF : Nat → List Char → Except RErr (List Token)
  | 0, _ => .error .fuel
  | _ + 1, [] => .ok []
  | f + 1, c :: cs =>
    if isWsChar c then tokF f cs
    else if c = '(' then (tokF f cs).map (Token.lp :: ·)
    else if c = ')' then (tokF f cs).map (Token.rp :: ·)
    else if c = '"' then
      match strSpan cs with
      | none => .error .unterminated
      | some (content, rest) =>
          (tokF f rest).map (Token.quoted ⟨content⟩ :: ·)
    else
      (tokF f ((c :: cs).dropWhile isBareChar)).map
        (Token.bare ⟨(c :: cs).takeWhile isBareChar⟩ :: ·)

/-- Tokenizer: the input length plus one is always enough fuel. -/
def tokenize (cs : List Char) : Except RErr (List Token) :=
  tokF (cs.length + 1) cs

/-- Atom classification on read (spec §4.1): numeric bare tokens become
numbers, other bare tokens become symbols. -/
def atomize (s : String) : Value :=
  if isNumeric s.data then .num s else .sym s

/-- Stack-machine builder: the stack holds the reversed children of every
open list.  A top-level atom and trailing tokens after the root list are
rejected (spec §4.1: the text must form a single top-level list). -/
def build : List Token → List (List Value) → Except RErr Value
  | [], _ => .error .unbalanced
  | t :: ts, stk =>
    match t, stk with
    | .lp, _ => build ts ([] :: stk)
    | .rp, [] => .error .unbalanced
    | .rp, top :: rest =>
      match rest with
      | [] => if ts.isEmpty then .ok (.list top.reverse) else .error .trailing
      | acc :: more => build ts ((Value.list top.reverse :: acc) :: more)
    | .bare _, [] => .error .noTopLevelList
    | .bare s, acc :: more => build ts ((atomize s :: acc) :: more)
    | .quoted _, [] => .error .noTopLevelList
    | .quoted s, acc :: more => build ts ((Value.str s :: acc) :: more)

/-- The generic reader (spec §4.1 `read`): tokenize, then build the single
top-level list. -/
def parseValue (s : String) : Except RErr Value :=
  match tokenize s.data with
  | .error e => .error e
  | .ok ts => build ts []

/-- Error kinds of the document parser: reader failures (the spec's
`ParseError`) and the `ValueError` that `test_parse_invalid_format` pins
for a document whose root tag is not `kicad_pcb`. -/
inductive PErr where
  | parseError (e : RErr)
  | valueError (msg : String)
deriving DecidableEq

/-- Whether a document-parser error is a reader-level `ParseError`. -/
def PErr.isParseError : PErr → Bool
  | .parseError _ => true
  | .valueError _ => false

/-- Whether a parsed tree has the required `kicad_pcb` root tag. -/
def isKicadRoot : Value → Bool
  | .list (.sym t :: _) => t = "kicad_pcb"
  | _ => false

/-- Modelled from the spec and `test_parse_invalid_format`:
`PCBParser.parse_string` — read the text, then require the `kicad_pcb`
root; a reader failure aborts with a `ParseError`-kind error and a
well-formed document with a different root aborts with
`ValueError("Invalid KiCad PCB format")`. -/
def parse_string (text : String) : Except PErr Value :=
  match parseValue text with
  | .error e => .error (.parseError e)
  | .ok v =>
      if isKicadRoot v then .ok v
      else .error (.valueError "Invalid KiCad PCB format")

mutual
/-- Trees in the image of the reader: non-keyword escapable-free strings,
lexically valid symbols and numerals, no booleans (the reader only
produces symbols, strings, numbers and lists). -/
def wfB : Value → Bool
  | .sym s => !s.data.isEmpty && s.data.all isBareChar && !isNumeric s.data
  | .num t => !t.data.isEmpty && isNumeric t.data && t.data.all isBareChar
  | .str s => s.data.all isStrChar && !is_bare_keyword s
  | .bool _ => false
  | .list l => wfL l
def wfL : List Value → Bool
  | [] => true
  | v :: vs => wfB v && wfL vs
end

/-- Documents: well-formed trees whose root is a list (spec §4.1). -/
def wfRoot : Value → Bool
  | .list l => wfL l
  | _ => false

/-- Modelled from the spec (§4.5 rule 6): the tags assembled on the
document's combined header line. -/
def headerTags : List String := ["version", "generator", "generator_version"]

/-- Whether a top-level child belongs on the combined header line. -/
def isHeaderChild : Value → Bool
  | .list (.sym t :: _) => headerTags.contains t
  | _ => false

/-- The combined header run: each header child rendered inline after a
single space. -/
def rHeader : List Value → List Char
  | [] => []
  | v :: vs => ' ' :: rInline v ++ rHeader vs

/-- Document-root layout (spec §4.5 rule 6, pinned by
`test_format_pcb_header` and the reference files written by
`scripts/create_phase1_references.py`): the leading run of
version/generator/generator_version children shares the opening
`(kicad_pcb` line, the remaining top-level sections follow the normal
block rule one per line at the next indent level, and the closing
parenthesis is aligned under the opening one. -/
def rPcb (children : List Value) : List Char :=
  '(' :: "kicad_pcb".data ++
    (rHeader (children.takeWhile isHeaderChild) ++
      (rChildren 1 (children.dropWhile isHeaderChild) ++
        '\n' :: (indentC 0 ++ [')'])))

/-- Modelled from the spec: `PCBFormatter.format_pcb`
(`core/pcb_formatter.py`, absent from `src/`) — the document renderer
with the special-cased combined root header line (spec §4.5 rule 6); a
document whose root is not `kicad_pcb` falls back to the generic
renderer. -/
def format_pcb : Value → String
  | .list (.sym "kicad_pcb" :: children) => ⟨rPcb children⟩
  | v => format v

/-- Well-formed documents of the reference format: the root is a list
whose leading symbol is `kicad_pcb` and whose remaining children are
well-formed reader-producible trees. -/
def wfPcbDoc : Value → Bool
  | .list (.sym t :: children) => (t = "kicad_pcb") && wfL children
  | _ => false

mutual
/-- The token sequence of a rendered well-formed value, independent of
layout. -/
def vtoks : Value → List Token
  | .sym s => [.bare s]
  | .num t => [.bare t]
  | .str s => [.quoted s]
  | .bool b => [.bare (if b then "yes" else "no")]
  | .list l => .lp :: ltoks l ++ [.rp]
def ltoks : List Value → List Token
  | [] => []
  | v :: vs => vtoks v ++ ltoks vs
end

/-- The continuation after a rendered value never starts with a bare
character, so maximal-munch lexing stops at the right place. -/
def headBareFree : List Char → Bool
  | [] => true
  | c :: _ => !isBareChar c

theorem strSpan_length : ∀ (cs a r : List Char),
    strSpan cs = some (a, r) → r.length ≤ cs.length := by
  intro cs
  induction cs with
  | nil => intro a r h; simp [strSpan] at h
  | cons c cs ih =>
    intro a r h
    by_cases hq : c = '"'
    · simp [strSpan, hq] at h
      simp [h.2, List.length_cons]
    · by_cases hb : c = '\\'
      · simp [strSpan, hq, hb] at h
      · simp only [strSpan, if_neg hq, if_neg hb] at h
        cases hs : strSpan cs with
        | none => rw [hs] at h; simp at h
        | some p =>
          obtain ⟨a0, r0⟩ := p
          rw [hs] at h
          simp at h
          have := ih a0 r0 hs
          rw [← h.2]
          simp [List.length_cons]
          omega

theorem strSpan_append (content : List Char)
    (h : content.all isStrChar = true) (cs : List Char) :
    strSpan (content ++ '"' :: cs) = some (content, cs) := by
  induction content with
  | nil => simp [strSpan]
  | cons c cc ih =>
    have hc : isStrChar c = true := by
      simp [List.all_eq_true] at h; exact h.1
    have hcc : cc.all isStrChar = true := by
      simp [List.all_eq_true] at h ⊢; exact h.2
    have h1 : ¬(c = '"') := by
      intro he; rw [he] at hc; simp [isStrChar] at hc
    have h2 : ¬(c = '\\') := by
      intro he; rw [he] at hc; simp [isStrChar] at hc
    simp [strSpan, h1, h2, ih hcc]

theorem length_dropWhile_le (p : Char → Bool) :
    ∀ (l : List Char), (l.dropWhile p).length ≤ l.length := by
  intro l
  induction l with
  | nil => simp
  | cons c cs ih =>
    by_cases h : p c
    · simp [List.dropWhile, h]; omega
    · simp [List.dropWhile, h]

theorem tok_mono : ∀ (n : Nat) (cs : List Char) (f g : Nat),
    cs.length ≤ n → cs.length < f → cs.length < g →
    tokF f cs = tokF g cs := by
  intro n
  induction n with
  | zero =>
    intro cs f g hn hf hg
    match cs, hn with
    | [], _ =>
      match f, g, hf, hg with
      | f + 1, g + 1, _, _ => rfl
  | succ n ih =>
    intro cs f g hn hf hg
    match cs with
    | [] =>
      match f, g, hf, hg with
      | f + 1, g + 1, _, _ => rfl
    | c :: cs =>
      match f, g, hf, hg with
      | f + 1, g + 1, hf, hg =>
        have hlen : cs.length ≤ n := by
          simp [List.length_cons] at hn; omega
        have hf1 : cs.length < f := by
          simp [List.length_cons] at hf; omega
        have hg1 : cs.length < g := by
          simp [List.length_cons] at hg; omega
        simp only [tokF]
        by_cases hw : isWsChar c
        · simp only [hw, if_true]
          exact ih cs f g hlen hf1 hg1
        · simp only [hw, Bool.false_eq_true, if_false]
          by_cases hl : c = '('
          · simp only [hl, if_true]
            rw [ih cs f g hlen hf1 hg1]
          · simp only [hl, if_false]
            by_cases hr : c = ')'
            · simp only [hr, if_true]
              rw [ih cs f g hlen hf1 hg1]
            · simp only [hr, if_false]
              by_cases hq : c = '"'
              · simp only [hq, if_true]
                cases hs : strSpan cs with
                | none => simp [hs]
                | some p =>
                  obtain ⟨a, r⟩ := p
                  have hr1 := strSpan_length cs a r hs
                  simp only [hs]
                  rw [ih r f g (by omega) (by omega) (by omega)]
              · simp only [hq, if_false]
                have hbc : isBareChar c = true := by
                  simp [isBareChar, hw, hl, hr, hq]
                have hd : ((c :: cs).dropWhile isBareChar).length ≤ cs.length := by
                  rw [List.dropWhile_cons_of_pos hbc]
                  exact length_dropWhile_le _ cs
                rw [ih ((c :: cs).dropWhile isBareChar) f g
                  (by omega) (by omega) (by omega)]

/-- Fuel renormalization: any sufficient fuel computes `tokenize`. -/
theorem tokF_to_tokenize {f : Nat} {cs : List Char} (h : cs.length < f) :
    tokF f cs = tokenize cs :=
  tok_mono cs.length cs f (cs.length + 1) le_rfl h (by omega)

theorem bare_facts {c : Char} (h : isBareChar c = true) :
    isWsChar c = false ∧ ¬(c = '(') ∧ ¬(c = ')') ∧ ¬(c = '"') := by
  by_cases h1 : isWsChar c
  · simp [isBareChar, h1] at h
  · refine ⟨by simp [h1], ?_, ?_, ?_⟩ <;> intro he <;> subst he <;>
      simp [isBareChar] at h

theorem tokF_step_ws {c : Char} {cs : List Char} {f : Nat}
    (h : isWsChar c = true) : tokF (f + 1) (c :: cs) = tokF f cs := by
  simp [tokF, h]

theorem tokF_step_lp {cs : List Char} {f : Nat} :
    tokF (f + 1) ('(' :: cs) = (tokF f cs).map (Token.lp :: ·) := by
  have h : isWsChar '(' = false := by decide
  simp [tokF, h]

theorem tokF_step_rp {cs : List Char} {f : Nat} :
    tokF (f + 1) (')' :: cs) = (tokF f cs).map (Token.rp :: ·) := by
  have h : isWsChar ')' = false := by decide
  simp [tokF, h]

theorem tokF_step_quote {cs content rest : List Char} {f : Nat}
    (hs : strSpan cs = some (content, rest)) :
    tokF (f + 1) ('"' :: cs) =
      (tokF f rest).map (Token.quoted ⟨content⟩ :: ·) := by
  have h : isWsChar '"' = false := by decide
  simp [tokF, h, hs]

theorem tokF_step_bare {c : Char} {cs : List Char} {f : Nat}
    (h : isBareChar c = true) :
    tokF (f + 1) (c :: cs) =
      (tokF f (List.dropWhile isBareChar (c :: cs))).map
        (Token.bare ⟨List.takeWhile isBareChar (c :: cs)⟩ :: ·) := by
  obtain ⟨h1, h2, h3, h4⟩ := bare_facts h
  simp [tokF, h1, h2, h3, h4]

/-- Single whitespace characters are skipped. -/
theorem tok_ws (c : Char) (cs : List Char) (h : isWsChar c = true) :
    tokenize (c :: cs) = tokenize cs := by
  show tokF (cs.length + 1 + 1) (c :: cs) = tokenize cs
  rw [tokF_step_ws h]; rfl

/-- Whitespace prefixes are skipped. -/
theorem tok_ws_run : ∀ (w : List Char), (∀ c ∈ w, isWsChar c = true) →
    ∀ cs, tokenize (w ++ cs) = tokenize cs := by
  intro w
  induction w with
  | nil => intro _ cs; rfl
  | cons c cc ih =>
    intro h cs
    rw [List.cons_append, tok_ws c _ (h c (by simp))]
    exact ih (fun x hx => h x (by simp [hx])) cs

theorem tok_lp (cs : List Char) :
    tokenize ('(' :: cs) = (tokenize cs).map (Token.lp :: ·) := by
  show tokF (cs.length + 1 + 1) ('(' :: cs) = _
  rw [tokF_step_lp]; rfl

theorem tok_rp (cs : List Char) :
    tokenize (')' :: cs) = (tokenize cs).map (Token.rp :: ·) := by
  show tokF (cs.length + 1 + 1) (')' :: cs) = _
  rw [tokF_step_rp]; rfl

theorem tok_quoted (content : List Char) (h : content.all isStrChar = true)
    (cs : List Char) :
    tokenize ('"' :: content ++ '"' :: cs) =
      (tokenize cs).map (Token.quoted ⟨content⟩ :: ·) := by
  have hspan := strSpan_append content h cs
  show tokF ((content ++ '"' :: cs).length + 1 + 1)
        ('"' :: (content ++ '"' :: cs)) = _
  rw [tokF_step_quote hspan, tokF_to_tokenize
    (by simp [List.length_append, List.length_cons]; omega)]

theorem tok_bare (s : List Char) (hne : s ≠ [])
    (hall : s.all isBareChar = true) (cs : List Char)
    (hcs : headBareFree cs = true) :
    tokenize (s ++ cs) = (tokenize cs).map (Token.bare ⟨s⟩ :: ·) := by
  match s, hne with
  | c :: cc, _ =>
    have hc : isBareChar c = true := by
      simp [List.all_eq_true] at hall; exact hall.1
    have hcc : ∀ x ∈ cc, isBareChar x = true := by
      simp [List.all_eq_true] at hall; exact hall.2
    have hcs0 : cs.takeWhile isBareChar = [] ∧ cs.dropWhile isBareChar = cs := by
      match cs, hcs with
      | [], _ => simp
      | d :: ds, hcs =>
        have hd : isBareChar d = false := by
          simp [headBareFree] at hcs; exact hcs
        constructor
        · simp [List.takeWhile_cons, hd]
        · simp [List.dropWhile_cons, hd]
    have htake : List.takeWhile isBareChar (c :: (cc ++ cs)) = c :: cc := by
      rw [List.takeWhile_cons_of_pos hc, List.takeWhile_append,
        List.takeWhile_eq_self_iff.mpr hcc]
      simp [hcs0.1]
    have hdrop : List.dropWhile isBareChar (c :: (cc ++ cs)) = cs := by
      rw [List.dropWhile_cons_of_pos hc, List.dropWhile_append,
        List.dropWhile_eq_nil_iff.mpr hcc]
      simp [hcs0.2]
    show tokF ((cc ++ cs).length + 1 + 1) (c :: (cc ++ cs)) = _
    rw [tokF_step_bare hc, htake, hdrop, tokF_to_tokenize
      (by simp [List.length_append]; omega)]

theorem emap_emap (x : Except RErr (List Token))
    (f g : List Token → List Token) :
    (x.map f).map g = x.map (fun ts => g (f ts)) := by
  cases x <;> rfl

theorem emap_congr (x : Except RErr (List Token))
    {F G : List Token → List Token} (h : ∀ ts, F ts = G ts) :
    x.map F = x.map G := by
  cases x <;> simp [Except.map, h]

theorem emap_nil (x : Except RErr (List Token)) :
    x.map (fun ts => [] ++ ts) = x := by
  cases x <;> simp [Except.map]

theorem ne_nil_of_isEmpty_false {l : List Char} (h : l.isEmpty = false) :
    l ≠ [] := by
  cases l <;> simp_all

theorem sizeOf_children_lt (l : List Value) :
    sizeOf l < sizeOf (Value.list l) := by
  simp [Value.list.sizeOf_spec]

theorem sizeOf_head_lt (v : Value) (vs : List Value) :
    sizeOf v < sizeOf (v :: vs) := by
  simp [List.cons.sizeOf_spec]
  omega

theorem sizeOf_tail_lt (v : Value) (vs : List Value) :
    sizeOf vs < sizeOf (v :: vs) := by
  simp [List.cons.sizeOf_spec]

theorem indentC_ws (n : Nat) : ∀ c ∈ indentC n, isWsChar c = true := by
  intro c hc
  simp [indentC, List.mem_replicate] at hc
  rw [hc.2]
  decide

theorem hbf_children_tail (ind : Nat) (t : List Value) (X : List Char) :
    headBareFree (rChildren ind t ++ '\n' :: X) = true := by
  cases t with
  | nil => show (!isBareChar '\n') = true; decide
  | cons v vs =>
    show headBareFree (('\n' :: (indentC ind ++ rAt ind v ++
      rChildren ind vs)) ++ '\n' :: X) = true
    show (!isBareChar '\n') = true
    decide

theorem hbf_children_append (ind : Nat) (t : List Value) (cs : List Char)
    (h : headBareFree cs = true) :
    headBareFree (rChildren ind t ++ cs) = true := by
  cases t with
  | nil => exact h
  | cons v vs =>
    show headBareFree (('\n' :: (indentC ind ++ rAt ind v ++
      rChildren ind vs)) ++ cs) = true
    show (!isBareChar '\n') = true
    decide

theorem tokenize_render : ∀ (n : Nat),
    (∀ v : Value, sizeOf v ≤ n → wfB v = true →
      (∀ cs, headBareFree cs = true →
        tokenize (rInline v ++ cs) = (tokenize cs).map (vtoks v ++ ·)) ∧
      (∀ ind cs, headBareFree cs = true →
        tokenize (rAt ind v ++ cs) = (tokenize cs).map (vtoks v ++ ·))) ∧
    (∀ l : List Value, sizeOf l ≤ n → wfL l = true →
      (∀ cs, tokenize (rIList l ++ ')' :: cs) =
        (tokenize cs).map ((ltoks l ++ [Token.rp]) ++ ·)) ∧
      (∀ ind cs, headBareFree cs = true →
        tokenize (rChildren ind l ++ cs) = (tokenize cs).map (ltoks l ++ ·))) := by
  intro n
  induction n using Nat.strong_induction_on with
  | _ n ih =>
  constructor
  · intro v hsz hwf
    cases v with
    | sym s =>
      simp only [wfB, Bool.and_eq_true, Bool.not_eq_true'] at hwf
      obtain ⟨⟨h1, h2⟩, _⟩ := hwf
      have hS1 : ∀ cs, headBareFree cs = true →
          tokenize (rInline (.sym s) ++ cs) =
            (tokenize cs).map (vtoks (.sym s) ++ ·) := by
        intro cs hcs
        show tokenize (s.data ++ cs) = _
        rw [tok_bare s.data (ne_nil_of_isEmpty_false h1) h2 cs hcs]
        exact emap_congr _ (fun ts => rfl)
      exact ⟨hS1, fun ind cs hcs => hS1 cs hcs⟩
    | num t =>
      simp only [wfB, Bool.and_eq_true, Bool.not_eq_true'] at hwf
      obtain ⟨⟨h1, _⟩, h3⟩ := hwf
      have hS1 : ∀ cs, headBareFree cs = true →
          tokenize (rInline (.num t) ++ cs) =
            (tokenize cs).map (vtoks (.num t) ++ ·) := by
        intro cs hcs
        show tokenize (t.data ++ cs) = _
        rw [tok_bare t.data (ne_nil_of_isEmpty_false h1) h3 cs hcs]
        exact emap_congr _ (fun ts => rfl)
      exact ⟨hS1, fun ind cs hcs => hS1 cs hcs⟩
    | str s =>
      simp only [wfB, Bool.and_eq_true, Bool.not_eq_true'] at hwf
      obtain ⟨h1, h2⟩ := hwf
      have hS1 : ∀ cs, headBareFree cs = true →
          tokenize (rInline (.str s) ++ cs) =
            (tokenize cs).map (vtoks (.str s) ++ ·) := by
        intro cs hcs
        show tokenize ((if is_bare_keyword s then s.data
          else '"' :: s.data ++ ['"']) ++ cs) = _
        rw [if_neg (by simp [h2])]
        have : ('"' :: s.data ++ ['"']) ++ cs = '"' :: s.data ++ '"' :: cs := by
          simp [List.cons_append, List.append_assoc]
        rw [this, tok_quoted s.data h1 cs]
        exact emap_congr _ (fun ts => rfl)
      exact ⟨hS1, fun ind cs hcs => hS1 cs hcs⟩
    | bool b => simp [wfB] at hwf
    | list l =>
      have hwl : wfL l = true := by simpa [wfB] using hwf
      have hlt : sizeOf l < n :=
        lt_of_lt_of_le (sizeOf_children_lt l) hsz
      have hS2 := ((ih (sizeOf l) hlt).2 l le_rfl hwl).1
      have hS4 := ((ih (sizeOf l) hlt).2 l le_rfl hwl).2
      have hS1 : ∀ cs, headBareFree cs = true →
          tokenize (rInline (.list l) ++ cs) =
            (tokenize cs).map (vtoks (.list l) ++ ·) := by
        intro cs hcs
        show tokenize (('(' :: rIList l ++ [')']) ++ cs) = _
        have : ('(' :: rIList l ++ [')']) ++ cs =
            '(' :: (rIList l ++ ')' :: cs) := by
          simp [List.cons_append, List.append_assoc]
        rw [this, tok_lp, hS2 cs, emap_emap]
        exact emap_congr _ (fun ts => by
          simp [vtoks, List.append_assoc])
      refine ⟨hS1, ?_⟩
      intro ind cs hcs
      by_cases hin : inlineHead l
      · show tokenize ((if inlineHead l then rInline (.list l)
            else rBlock ind l) ++ cs) = _
        rw [if_pos hin]
        exact hS1 cs hcs
      · show tokenize ((if inlineHead l then rInline (.list l)
            else rBlock ind l) ++ cs) = _
        rw [if_neg hin]
        cases l with
        | nil =>
          show tokenize ('(' :: ')' :: cs) = _
          rw [tok_lp, tok_rp, emap_emap]
          exact emap_congr _ (fun ts => by simp [vtoks, ltoks])
        | cons h t =>
          simp only [wfL, Bool.and_eq_true] at hwl
          have hlh : sizeOf h < n := by
            have := sizeOf_head_lt h t
            have := sizeOf_children_lt (h :: t)
            omega
          have hlth : sizeOf t < n := by
            have := sizeOf_tail_lt h t
            have := sizeOf_children_lt (h :: t)
            omega
          have hS1h := ((ih (sizeOf h) hlh).1 h le_rfl hwl.1).1
          have hS4t := ((ih (sizeOf t) hlth).2 t le_rfl hwl.2).2
          show tokenize (('(' :: rInline h ++ rChildren (ind + 1) t ++
            '\n' :: indentC ind ++ [')']) ++ cs) = _
          have heq : ('(' :: rInline h ++ rChildren (ind + 1) t ++
              '\n' :: indentC ind ++ [')']) ++ cs =
              '(' :: (rInline h ++ (rChildren (ind + 1) t ++
                ('\n' :: (indentC ind ++ (')' :: cs))))) := by
            simp [List.cons_append, List.append_assoc]
          rw [heq, tok_lp,
            hS1h _ (hbf_children_tail (ind + 1) t (indentC ind ++ (')' :: cs))),
            hS4t (ind + 1) _ (by show (!isBareChar '\n') = true; decide),
            tok_ws '\n' _ (by decide),
            tok_ws_run (indentC ind) (indentC_ws ind),
            tok_rp, emap_emap, emap_emap, emap_emap]
          exact emap_congr _ (fun ts => by
            simp [vtoks, ltoks, List.append_assoc])
  · intro l hsz hwf
    cases l with
    | nil =>
      constructor
      · intro cs
        show tokenize (')' :: cs) = _
        rw [tok_rp]
        exact emap_congr _ (fun ts => by simp [ltoks])
      · intro ind cs hcs
        show tokenize cs = (tokenize cs).map (ltoks [] ++ ·)
        rw [show ltoks [] = [] from rfl]
        exact (emap_nil _).symm
    | cons v vs =>
      simp only [wfL, Bool.and_eq_true] at hwf
      have hlv : sizeOf v < n :=
        lt_of_lt_of_le (sizeOf_head_lt v vs) hsz
      have hlvs : sizeOf vs < n :=
        lt_of_lt_of_le (sizeOf_tail_lt v vs) hsz
      have hv := (ih (sizeOf v) hlv).1 v le_rfl hwf.1
      have hvs := (ih (sizeOf vs) hlvs).2 vs le_rfl hwf.2
      constructor
      · intro cs
        cases vs with
        | nil =>
          show tokenize (rInline v ++ ')' :: cs) = _
          rw [hv.1 _ (by show (!isBareChar ')') = true; decide), tok_rp,
            emap_emap]
          exact emap_congr _ (fun ts => by simp [ltoks, List.append_assoc])
        | cons w ws =>
          show tokenize ((rInline v ++ ' ' :: rIList (w :: ws)) ++ ')' :: cs) = _
          have heq : (rInline v ++ ' ' :: rIList (w :: ws)) ++ ')' :: cs =
              rInline v ++ ' ' :: (rIList (w :: ws) ++ ')' :: cs) := by
            simp [List.append_assoc]
          rw [heq, hv.1 _ (by show (!isBareChar ' ') = true; decide),
            tok_ws ' ' _ (by decide), hvs.1 cs, emap_emap]
          exact emap_congr _ (fun ts => by
            simp [ltoks, List.append_assoc])
      · intro ind cs hcs
        show tokenize (('\n' :: (indentC ind ++ rAt ind v ++
          rChildren ind vs)) ++ cs) = _
        have heq : ('\n' :: (indentC ind ++ rAt ind v ++
            rChildren ind vs)) ++ cs =
            '\n' :: (indentC ind ++ (rAt ind v ++ (rChildren ind vs ++ cs))) := by
          simp [List.cons_append, List.append_assoc]
        rw [heq, tok_ws '\n' _ (by decide),
          tok_ws_run (indentC ind) (indentC_ws ind),
          hv.2 ind _ (hbf_children_append ind vs cs hcs),
          hvs.2 ind cs hcs, emap_emap]
        exact emap_congr _ (fun ts => by simp [ltoks, List.append_assoc])

theorem build_step_lp (ts : List Token) (stk : List (List Value)) :
    build (Token.lp :: ts) stk = build ts ([] :: stk) := rfl

theorem build_step_rp_cons (ts : List Token) (top acc : List Value)
    (stk : List (List Value)) :
    build (Token.rp :: ts) (top :: acc :: stk) =
      build ts ((Value.list top.reverse :: acc) :: stk) := rfl

theorem build_step_rp_last (ts : List Token) (top : List Value) :
    build (Token.rp :: ts) [top] =
      if ts.isEmpty then Except.ok (Value.list top.reverse)
      else Except.error RErr.trailing := rfl

theorem build_step_bare (s : String) (ts : List Token) (acc : List Value)
    (stk : List (List Value)) :
    build (Token.bare s :: ts) (acc :: stk) =
      build ts ((atomize s :: acc) :: stk) := rfl

theorem build_step_quoted (s : String) (ts : List Token) (acc : List Value)
    (stk : List (List Value)) :
    build (Token.quoted s :: ts) (acc :: stk) =
      build ts ((Value.str s :: acc) :: stk) := rfl

theorem build_toks : ∀ (n : Nat),
    (∀ v : Value, sizeOf v ≤ n → wfB v = true →
      ∀ ts acc stk, build (vtoks v ++ ts) (acc :: stk) =
        build ts ((v :: acc) :: stk)) ∧
    (∀ l : List Value, sizeOf l ≤ n → wfL l = true →
      ∀ ts acc stk, build (ltoks l ++ ts) (acc :: stk) =
        build ts ((l.reverse ++ acc) :: stk)) := by
  intro n
  induction n using Nat.strong_induction_on with
  | _ n ih =>
  constructor
  · intro v hsz hwf ts acc stk
    cases v with
    | sym s =>
      simp only [wfB, Bool.and_eq_true, Bool.not_eq_true'] at hwf
      show build (Token.bare s :: ts) (acc :: stk) = _
      simp [build, atomize, hwf.2]
    | num t =>
      simp only [wfB, Bool.and_eq_true, Bool.not_eq_true'] at hwf
      show build (Token.bare t :: ts) (acc :: stk) = _
      simp [build, atomize, hwf.1.2]
    | str s =>
      show build (Token.quoted s :: ts) (acc :: stk) = _
      simp [build]
    | bool b => simp [wfB] at hwf
    | list l =>
      have hwl : wfL l = true := by simpa [wfB] using hwf
      have hlt : sizeOf l < n :=
        lt_of_lt_of_le (sizeOf_children_lt l) hsz
      have hE := (ih (sizeOf l) hlt).2 l le_rfl hwl
      show build ((Token.lp :: (ltoks l ++ [Token.rp])) ++ ts)
        (acc :: stk) = _
      have heq : (Token.lp :: (ltoks l ++ [Token.rp])) ++ ts =
          Token.lp :: (ltoks l ++ (Token.rp :: ts)) := by
        simp [List.cons_append, List.append_assoc]
      rw [heq, build_step_lp, hE (Token.rp :: ts) [] (acc :: stk),
        build_step_rp_cons]
      simp
  · intro l hsz hwf ts acc stk
    cases l with
    | nil => simp [ltoks]
    | cons v vs =>
      simp only [wfL, Bool.and_eq_true] at hwf
      have hlv : sizeOf v < n :=
        lt_of_lt_of_le (sizeOf_head_lt v vs) hsz
      have hlvs : sizeOf vs < n :=
        lt_of_lt_of_le (sizeOf_tail_lt v vs) hsz
      show build ((vtoks v ++ ltoks vs) ++ ts) (acc :: stk) = _
      rw [List.append_assoc,
        (ih (sizeOf v) hlv).1 v le_rfl hwf.1 (ltoks vs ++ ts) acc stk,
        (ih (sizeOf vs) hlvs).2 vs le_rfl hwf.2 ts (v :: acc) stk]
      simp [List.reverse_cons, List.append_assoc]

/-- Building the token stream of a well-formed root list yields it
back. -/
theorem build_root (l : List Value) (hw : wfL l = true) :
    build (vtoks (.list l)) [] = .ok (.list l) := by
  show build ((Token.lp :: (ltoks l ++ [Token.rp]))) [] = _
  rw [build_step_lp,
    ((build_toks (sizeOf l)).2 l le_rfl hw) [Token.rp] [] [],
    build_step_rp_last]
  simp

/-- Reading back a rendered well-formed document recovers the tree. -/
theorem parseValue_format (v : Value) (hwf : wfRoot v = true) :
    parseValue (format v) = .ok v := by
  obtain ⟨l, rfl⟩ : ∃ l, v = .list l := by
    cases v <;> simp [wfRoot] at hwf ⊢
  have hwb : wfB (.list l) = true := by simpa [wfB, wfRoot] using hwf
  have htok : tokenize (rAt 0 (.list l)) = .ok (vtoks (.list l)) := by
    have h3 := (((tokenize_render (sizeOf (Value.list l))).1
      (Value.list l) le_rfl hwb).2) 0 [] rfl
    rw [List.append_nil] at h3
    rw [h3, show tokenize [] = Except.ok [] from rfl]
    simp [Except.map]
  show (match tokenize (format (Value.list l)).data with
    | .error e => Except.error e
    | .ok ts => build ts []) = _
  have hdata : (format (Value.list l)).data = rAt 0 (Value.list l) := rfl
  rw [hdata, htok]
  exact build_root l (by simpa [wfB] using hwb)

theorem ltoks_append (a b : List Value) :
    ltoks (a ++ b) = ltoks a ++ ltoks b := by
  induction a with
  | nil => rfl
  | cons v vs ih => simp [ltoks, ih, List.append_assoc]

theorem wfL_take_drop (p : Value → Bool) :
    ∀ (l : List Value), wfL l = true →
      wfL (l.takeWhile p) = true ∧ wfL (l.dropWhile p) = true := by
  intro l
  induction l with
  | nil => intro _; exact ⟨rfl, rfl⟩
  | cons v vs ih =>
    intro h
    simp only [wfL, Bool.and_eq_true] at h
    by_cases hp : p v
    · rw [List.takeWhile_cons_of_pos hp, List.dropWhile_cons_of_pos hp]
      refine ⟨?_, (ih h.2).2⟩
      simp [wfL, h.1, (ih h.2).1]
    · rw [List.takeWhile_cons_of_neg (by simp [hp]),
        List.dropWhile_cons_of_neg (by simp [hp])]
      exact ⟨rfl, by simp [wfL, h.1, h.2]⟩

theorem hbf_header_append (vs : List Value) (cs : List Char)
    (h : headBareFree cs = true) :
    headBareFree (rHeader vs ++ cs) = true := by
  cases vs with
  | nil => exact h
  | cons v vv =>
    show (!isBareChar ' ') = true
    decide

/-- Tokenizing the combined header run prepends its children's tokens. -/
theorem tok_header : ∀ (vs : List Value), wfL vs = true →
    ∀ cs, headBareFree cs = true →
      tokenize (rHeader vs ++ cs) = (tokenize cs).map (ltoks vs ++ ·) := by
  intro vs
  induction vs with
  | nil =>
    intro _ cs _
    show tokenize cs = (tokenize cs).map (ltoks [] ++ ·)
    rw [show ltoks [] = [] from rfl]
    exact (emap_nil _).symm
  | cons v vv ih =>
    intro hw cs hcs
    simp only [wfL, Bool.and_eq_true] at hw
    have heq : rHeader (v :: vv) ++ cs =
        ' ' :: (rInline v ++ (rHeader vv ++ cs)) := by
      show (' ' :: (rInline v ++ rHeader vv)) ++ cs = _
      simp [List.cons_append, List.append_assoc]
    rw [heq, tok_ws ' ' _ (by decide),
      (((tokenize_render (sizeOf v)).1 v le_rfl hw.1).1) _
        (hbf_header_append vv cs hcs),
      ih hw.2 cs hcs, emap_emap]
    exact emap_congr _ (fun ts => by simp [ltoks, List.append_assoc])

/-- Reading back a document rendered with the combined root header line
recovers the tree. -/
theorem parseValue_format_pcb (v : Value) (hwf : wfPcbDoc v = true) :
    parseValue (format_pcb v) = .ok v := by
  cases v with
  | sym s => simp [wfPcbDoc] at hwf
  | num t => simp [wfPcbDoc] at hwf
  | str s => simp [wfPcbDoc] at hwf
  | bool b => simp [wfPcbDoc] at hwf
  | list l =>
    cases l with
    | nil => simp [wfPcbDoc] at hwf
    | cons h children =>
      cases h with
      | str s => simp [wfPcbDoc] at hwf
      | num t => simp [wfPcbDoc] at hwf
      | bool b => simp [wfPcbDoc] at hwf
      | list l2 => simp [wfPcbDoc] at hwf
      | sym t =>
        simp only [wfPcbDoc, Bool.and_eq_true, decide_eq_true_eq] at hwf
        obtain ⟨rfl, hwc⟩ := hwf
        have hsub := wfL_take_drop isHeaderChild children hwc
        have hcat := List.takeWhile_append_dropWhile
          (p := isHeaderChild) (l := children)
        have hbf1 : headBareFree
            (rHeader (children.takeWhile isHeaderChild) ++
              (rChildren 1 (children.dropWhile isHeaderChild) ++
                '\n' :: (indentC 0 ++ [')']))) = true := by
          apply hbf_header_append
          exact hbf_children_tail 1 _ _
        have htok : tokenize (rPcb children) =
            .ok (vtoks (.list (.sym "kicad_pcb" :: children))) := by
          show tokenize ('(' :: ("kicad_pcb".data ++
            (rHeader (children.takeWhile isHeaderChild) ++
              (rChildren 1 (children.dropWhile isHeaderChild) ++
                '\n' :: (indentC 0 ++ [')']))))) = _
          rw [tok_lp,
            tok_bare "kicad_pcb".data (by decide) (by decide) _ hbf1,
            tok_header _ hsub.1 _ (hbf_children_tail 1 _ _),
            (((tokenize_render
              (sizeOf (children.dropWhile isHeaderChild))).2
              (children.dropWhile isHeaderChild) le_rfl hsub.2).2) 1 _
              (by show (!isBareChar '\n') = true; decide),
            tok_ws '\n' _ (by decide), tok_ws_run (indentC 0) (indentC_ws 0),
            tok_rp, show tokenize [] = Except.ok [] from rfl]
          simp only [Except.map]
          show Except.ok _ = _
          congr 1
          show Token.lp :: (Token.bare "kicad_pcb" ::
            (ltoks (children.takeWhile isHeaderChild) ++
              (ltoks (children.dropWhile isHeaderChild) ++
                (Token.rp :: [])))) = _
          show _ = Token.lp :: (ltoks (.sym "kicad_pcb" :: children) ++
            [Token.rp])
          rw [show ltoks (Value.sym "kicad_pcb" :: children) =
            Token.bare "kicad_pcb" :: ltoks children from rfl]
          rw [← hcat, ltoks_append, hcat]
          simp [List.append_assoc]
        show (match tokenize
            (format_pcb (Value.list (.sym "kicad_pcb" :: children))).data with
          | .error e => Except.error e
          | .ok ts => build ts []) = _
        have hdata : (format_pcb
            (Value.list (.sym "kicad_pcb" :: children))).data =
            rPcb children := rfl
        rw [hdata, htok]
        exact build_root (.sym "kicad_pcb" :: children)
          (by simp [wfL, hwc]; decide)

end Fmt

/-- Claim C1: for every document D in the canonical format — the
rendering by the document formatter (with the combined
`(kicad_pcb (version …) (generator …) (generator_version …)` root header
line of spec §4.5 rule 6) of a well-formed `kicad_pcb` document tree,
which is what the reference documents with registered parsers and
inline/block classifications are — parsing D and re-rendering it
reproduces D byte-for-byte: `render (parse D) = D`. -/
theorem C1_render_parse_roundtrip (D : String) (v : Fmt.Value)
    (hv : Fmt.wfPcbDoc v = true) (hD : Fmt.format_pcb v = D) :
    (Fmt.parseValue D).map Fmt.format_pcb = Except.ok D := by
  subst hD
  rw [Fmt.parseValue_format_pcb v hv]
  rfl

/-- Claim C1, witness: a concrete document in the reference layout — the
combined root header line followed by block-rendered sections —
round-trips byte-for-byte. -/
theorem C1_render_parse_roundtrip_witness :
    (Fmt.parseValue
      "(kicad_pcb (version 20241229) (generator \"pcbnew\") (generator_version \"9.0\")\n  (general\n    (thickness 1.6)\n  )\n  (net 0 \"\")\n)").map
      Fmt.format_pcb =
    Except.ok
      "(kicad_pcb (version 20241229) (generator \"pcbnew\") (generator_version \"9.0\")\n  (general\n    (thickness 1.6)\n  )\n  (net 0 \"\")\n)" :=
  C1_render_parse_roundtrip _
    (Fmt.Value.list [.sym "kicad_pcb",
      .list [.sym "version", .num "20241229"],
      .list [.sym "generator", .str "pcbnew"],
      .list [.sym "generator_version", .str "9.0"],
      .list [.sym "general", .list [.sym "thickness", .num "1.6"]],
      .list [.sym "net", .num "0", .str ""]])
    (by decide) rfl

/-- Claim C2: the formatter renders a Symbol bare regardless of its text,
and renders a Str bare exactly when its text is in the keyword table,
quoted otherwise; in particular `Symbol "F.Cu"` renders bare, the string
`"F.Cu"` renders quoted, and the string `"yes"` renders as the bare
keyword. -/
theorem C2_symbol_vs_string_rendering :
    (∀ s : String, Fmt.format (Fmt.Value.sym s) = s) ∧
    (∀ s : String, Fmt.format (Fmt.Value.str s) =
      if Fmt.is_bare_keyword s then s else "\"" ++ s ++ "\"") ∧
    Fmt.format (Fmt.Value.sym "F.Cu") = "F.Cu" ∧
    Fmt.format (Fmt.Value.str "F.Cu") = "\"F.Cu\"" ∧
    Fmt.format (Fmt.Value.str "yes") = "yes" := by
  refine ⟨fun s => rfl, fun s => ?_, rfl, rfl, rfl⟩
  by_cases h : Fmt.is_bare_keyword s
  · simp only [if_pos h]
    show (⟨Fmt.rAt 0 (Fmt.Value.str s)⟩ : String) = s
    show (⟨if Fmt.is_bare_keyword s then s.data
      else '"' :: s.data ++ ['"']⟩ : String) = s
    rw [if_pos h]
  · simp only [if_neg h]
    show (⟨if Fmt.is_bare_keyword s then s.data
      else '"' :: s.data ++ ['"']⟩ : String) = "\"" ++ s ++ "\""
    rw [if_neg h]
    apply String.ext
    simp [String.data_append]

/-- Claim C3, counterexample: the formatter does not fail on the empty
List — exactly as `test_format_empty_list` asserts, it renders it as
`()`, so a malformed tree does not raise `FormatError`. -/
theorem C3_empty_list_renders :
    Fmt.format (Fmt.Value.list []) = "()" := rfl

/-- Claim C3, amended: the formatter is total — every List, the empty one
included, renders to text starting with an opening parenthesis; no input
makes the render call fail with `FormatError`. -/
theorem C3_format_total :
    ∀ l : List Fmt.Value, ∃ rest : String,
      Fmt.format (Fmt.Value.list l) = "(" ++ rest := by
  intro l
  by_cases h : Fmt.inlineHead l
  · refine ⟨⟨Fmt.rIList l ++ [')']⟩, ?_⟩
    show (⟨Fmt.rAt 0 (Fmt.Value.list l)⟩ : String) = _
    apply String.ext
    show Fmt.rAt 0 (Fmt.Value.list l) = '(' :: (Fmt.rIList l ++ [')'])
    show (if Fmt.inlineHead l then Fmt.rInline (Fmt.Value.list l)
      else Fmt.rBlock 0 l) = _
    rw [if_pos h]
    rfl
  · cases l with
    | nil => exact ⟨")", rfl⟩
    | cons v vs =>
      refine ⟨⟨Fmt.rInline v ++ Fmt.rChildren 1 vs ++ '\n' ::
        Fmt.indentC 0 ++ [')']⟩, ?_⟩
      apply String.ext
      show Fmt.rAt 0 (Fmt.Value.list (v :: vs)) = _
      show (if Fmt.inlineHead (v :: vs) then
        Fmt.rInline (Fmt.Value.list (v :: vs))
        else Fmt.rBlock 0 (v :: vs)) = _
      rw [if_neg h]
      rfl

/-- Claim C4, counterexample: `parse_string "(not_a_pcb)"` aborts with
`ValueError("Invalid KiCad PCB format")` — the error the repository's own
`test_parse_invalid_format` expects — which is not a `ParseError`. -/
theorem C4_not_a_pcb_value_error :
    Fmt.parse_string "(not_a_pcb)" =
      .error (.valueError "Invalid KiCad PCB format") ∧
    (Fmt.PErr.valueError "Invalid KiCad PCB format").isParseError = false :=
  ⟨rfl, rfl⟩

/-- Claim C4, amended: every malformed top-level input makes
`parse_string` abort with an error and never yields a document without
the required root: unbalanced input aborts with a ParseError-kind reader
error, while a well-formed document whose root tag is not `kicad_pcb`
aborts with `ValueError("Invalid KiCad PCB format")` — not ParseError. -/
theorem C4_parse_string_aborts :
    (∀ t v, Fmt.parse_string t = .ok v → Fmt.isKicadRoot v = true) ∧
    (∀ t e, Fmt.parseValue t = .error e →
      Fmt.parse_string t = .error (.parseError e)) ∧
    (∀ t v, Fmt.parseValue t = .ok v → Fmt.isKicadRoot v = false →
      Fmt.parse_string t = .error (.valueError "Invalid KiCad PCB format")) ∧
    Fmt.parse_string "(kicad_pcb (version 1)" =
      .error (.parseError Fmt.RErr.unbalanced) := by
  refine ⟨?_, ?_, ?_, rfl⟩
  · intro t v h
    unfold Fmt.parse_string at h
    split at h
    · cases h
    · split at h
      · rename_i hr
        cases h
        exact hr
      · cases h
  · intro t e h
    unfold Fmt.parse_string
    rw [h]
  · intro t v h hr
    unfold Fmt.parse_string
    rw [h]
    simp [hr]

/-- Claim C4, witness: the amended theorem applied at the concrete input
of `test_parse_invalid_format`. -/
theorem C4_parse_string_aborts_witness :
    Fmt.parse_string "(not_a_pcb)" =
      .error (.valueError "Invalid KiCad PCB format") :=
  C4_parse_string_aborts.2.2.1 "(not_a_pcb)"
    (Fmt.Value.list [Fmt.Value.sym "not_a_pcb"]) rfl rfl

/-- Claim C5: a failure (raised exception) inside a registered parser is
recovered locally — `BaseElementParser.parse` returns `None` instead of
propagating — and `ParserRegistry.parse_elements` returns exactly the
successfully parsed values of the non-failing elements in their original
order (the `filterMap` of per-element parsing). -/
theorem C5_per_element_recovery :
    (∀ (α : Type) (p : KicadSE.EParser α) (e : List KicadSE.SExpr)
      (exc : KicadSE.PyExc),
      p.parse_element e = .error exc → p.parse e = none) ∧
    (∀ (α : Type) (reg : KicadSE.Registry α) (es : List KicadSE.SExpr),
      reg.parse_elements es = es.filterMap reg.parse_element) := by
  constructor
  · intro α p e exc h
    unfold KicadSE.EParser.parse
    by_cases hc : p.can_parse e
    · rw [if_pos hc, h]
    · rw [if_neg hc]
  · intro α reg es
    induction es with
    | nil => rfl
    | cons e rest ih =>
      show (match reg.parse_element e with
        | some r => r :: reg.parse_elements rest
        | none => reg.parse_elements rest) = _
      cases h : reg.parse_element e with
      | some r => simp [List.filterMap_cons, h, ih]
      | none => simp [List.filterMap_cons, h, ih]

/-- Claim C5, witness: a parser whose body raises is recovered to `None`
at a concrete element. -/
theorem C5_per_element_recovery_witness :
    (KicadSE.EParser.mk "net"
      (fun _ => Except.error KicadSE.PyExc.valueError) :
        KicadSE.EParser Nat).parse [KicadSE.SExpr.sym "net"] = none :=
  C5_per_element_recovery.1 Nat _ _ KicadSE.PyExc.valueError rfl

/-- Claim C10: re-registering a tag does not raise (the docstring's
advertised `ValueError` is never raised — the code only logs); the new
parser replaces the old one, and every subsequent `parse_element` call on
an element with that tag dispatches to the newly registered parser. -/
theorem C10_register_replaces :
    ∀ (α : Type) (reg : KicadSE.Registry α) (t : String)
      (p1 p2 : KicadSE.EParser α),
      ((reg.register t p1).register t p2).parsers t = some p2 ∧
      (∀ (h : KicadSE.SExpr) (rest : List KicadSE.SExpr),
        KicadSE.dispatchKey h = some t →
        ((reg.register t p1).register t p2).parse_element
          (KicadSE.SExpr.list (h :: rest)) = p2.parse (h :: rest)) := by
  intro α reg t p1 p2
  constructor
  · show (if t = t then some p2 else _) = some p2
    rw [if_pos rfl]
  · intro h rest hd
    show (match KicadSE.dispatchKey h with
      | none => none
      | some s =>
        match ((reg.register t p1).register t p2).parsers s with
        | some p => p.parse (h :: rest)
        | none =>
          match ((reg.register t p1).register t p2).fallback with
          | some fp => fp.parse (h :: rest)
          | none => none) = p2.parse (h :: rest)
    rw [hd]
    show (match ((reg.register t p1).register t p2).parsers t with
      | some p => p.parse (h :: rest)
      | none =>
        match ((reg.register t p1).register t p2).fallback with
        | some fp => fp.parse (h :: rest)
        | none => none) = p2.parse (h :: rest)
    have : ((reg.register t p1).register t p2).parsers t = some p2 := by
      show (if t = t then some p2 else _) = some p2
      rw [if_pos rfl]
    rw [this]

theorem ebind_ok {E α β : Type} (a : α) (f : α → Except E β) :
    (Except.ok a >>= f) = f a := rfl

theorem ebind_err {E α β : Type} (e : E) (f : α → Except E β) :
    (Except.error e >>= f : Except E β) = .error e := rfl

theorem bind_ok_inv {E α β : Type} {x : Except E α} {f : α → Except E β}
    {b : β} (h : (x >>= f) = .ok b) : ∃ a, x = .ok a ∧ f a = .ok b := by
  cases x with
  | error e => cases h
  | ok a => exact ⟨a, rfl, h⟩

/-- Claim C6, counterexample: `find_element` raises `IndexError` on a list
whose first item is the empty nested list, even though a later item
matches the wanted tag — it does not return the first match. -/
theorem C6_empty_sublist_raises :
    KicadSE.find_element
      [KicadSE.SExpr.list [], KicadSE.SExpr.list [KicadSE.SExpr.sym "net"]]
      "net" = .error KicadSE.PyExc.indexError ∧
    KicadSE.headTagIs "net"
      (KicadSE.SExpr.list [KicadSE.SExpr.sym "net"]) = true :=
  ⟨rfl, rfl⟩

/-- Claim C6, amended: on lists none of whose items is the empty List,
`find_element` returns the first item that is a nested list whose leading
symbol equals the wanted tag (first match wins), and `None` when no such
item exists; an empty nested list encountered during the scan instead
raises `IndexError`. -/
theorem C6_find_element_first_match :
    ∀ (l : List KicadSE.SExpr) (name : String),
      (∀ x ∈ l, KicadSE.isEmptyList x = false) →
      KicadSE.find_element l name =
        .ok (l.find? (KicadSE.headTagIs name)) := by
  intro l name h
  induction l with
  | nil => rfl
  | cons item rest ih =>
    have hr := ih (fun x hx => h x (List.mem_cons_of_mem _ hx))
    have hi := h item (List.mem_cons_self _ _)
    cases item with
    | list l2 =>
      cases l2 with
      | nil => simp [KicadSE.isEmptyList] at hi
      | cons hd tl =>
        by_cases hb : KicadSE.get_symbol_name hd = some name
        · show (if KicadSE.get_symbol_name hd = some name then _ else _) = _
          rw [if_pos hb, List.find?_cons_of_pos]
          simp [KicadSE.headTagIs, hb]
        · show (if KicadSE.get_symbol_name hd = some name then _ else _) = _
          rw [if_neg hb, hr, List.find?_cons_of_neg]
          simp [KicadSE.headTagIs, hb]
    | sym s =>
      show KicadSE.find_element rest name = _
      rw [hr, List.find?_cons_of_neg]
      simp [KicadSE.headTagIs]
    | str s =>
      show KicadSE.find_element rest name = _
      rw [hr, List.find?_cons_of_neg]
      simp [KicadSE.headTagIs]
    | int n =>
      show KicadSE.find_element rest name = _
      rw [hr, List.find?_cons_of_neg]
      simp [KicadSE.headTagIs]
    | float q =>
      show KicadSE.find_element rest name = _
      rw [hr, List.find?_cons_of_neg]
      simp [KicadSE.headTagIs]

/-- Claim C6, witness: the amended theorem at a list with two `net`
sub-elements — the earlier one wins. -/
theorem C6_find_element_first_match_witness :
    KicadSE.find_element
      [KicadSE.SExpr.sym "via",
       KicadSE.SExpr.list [KicadSE.SExpr.sym "net", KicadSE.SExpr.int 1],
       KicadSE.SExpr.list [KicadSE.SExpr.sym "net", KicadSE.SExpr.int 2]]
      "net" =
    .ok (([KicadSE.SExpr.sym "via",
       KicadSE.SExpr.list [KicadSE.SExpr.sym "net", KicadSE.SExpr.int 1],
       KicadSE.SExpr.list [KicadSE.SExpr.sym "net", KicadSE.SExpr.int 2]]).find?
        (KicadSE.headTagIs "net")) :=
  C6_find_element_first_match _ "net" (by decide)

/-- Claim C8, counterexample: parsing does not guarantee a net-0 entry —
a document whose only net element is `(net 0 "GND")` parses to an empty
net collection (the element is dropped), so it yields no `Net` with
number 0 and empty name at all. -/
theorem C8_no_net_zero_synthesized :
    (KicadSE.Registry.empty.register "net" KicadSE.netParser).parse_elements
      [KicadSE.SExpr.list [KicadSE.SExpr.sym "net", KicadSE.SExpr.int 0,
        KicadSE.SExpr.str "GND"]] = [] := rfl

/-- Claim C8, amended: constructing a `Net` with number 0 and a truthy
(non-empty) name is rejected, `validate_net` rejects a named net 0, and
every `Net` the net parser produces with number 0 has a falsy (empty)
name; but parsing does not synthesize a net 0 — a document without a
`(net 0 "")` element yields no net-0 entry. -/
theorem C8_net_zero_invariant :
    (∀ s : KicadSE.SExpr, KicadSE.pyTruthy s = true →
      KicadSE.mkNet (KicadSE.SExpr.int 0) s = .error KicadSE.PyExc.netError) ∧
    (∀ nm : String, ¬(nm = "") →
      KicadSE.validate_net 0 (some nm) = .error KicadSE.PyExc.netError) ∧
    (∀ (e : List KicadSE.SExpr) (n : KicadSE.Net),
      KicadSE.netParser.parse e = some n →
      n.number = KicadSE.SExpr.int 0 → KicadSE.pyTruthy n.name = false) := by
  refine ⟨?_, ?_, ?_⟩
  · intro s hs
    unfold KicadSE.mkNet
    rw [if_pos (by simp [KicadSE.isZeroInt, hs])]
  · intro nm hnm
    unfold KicadSE.validate_net
    rw [if_neg (by omega), if_pos (by simp [hnm])]
  · intro e n h hz
    unfold KicadSE.EParser.parse at h
    by_cases hc : KicadSE.netParser.can_parse e
    · rw [if_pos hc] at h
      cases hpe : KicadSE.netParser.parse_element e with
      | error ex => rw [hpe] at h; cases h
      | ok r =>
        rw [hpe] at h
        subst h
        replace hpe : KicadSE.netParseElement e = .ok (some n) := hpe
        unfold KicadSE.netParseElement at hpe
        split at hpe
        · rename_i a b tl
          unfold KicadSE.mkNet at hpe
          split at hpe
          · cases hpe
          · rename_i hguard
            simp only [Except.map] at hpe
            cases hpe
            replace hz : a = KicadSE.SExpr.int 0 := hz
            show KicadSE.pyTruthy b = false
            rw [hz] at hguard
            simp [KicadSE.isZeroInt] at hguard
            exact hguard
        · cases hpe
    · rw [if_neg hc] at h
      cases h

/-- Claim C8, witness: the amended theorem's rejection applied at the
concrete name `"GND"`. -/
theorem C8_net_zero_invariant_witness :
    KicadSE.mkNet (KicadSE.SExpr.int 0) (KicadSE.SExpr.str "GND") =
      .error KicadSE.PyExc.netError :=
  C8_net_zero_invariant.1 (KicadSE.SExpr.str "GND") rfl

/-- Claim C10, witness: re-registering `"net"` dispatches a concrete net
element to the second parser. -/
theorem C10_register_replaces_witness :
    (((KicadSE.Registry.empty).register "net"
        (KicadSE.EParser.mk "net" (fun _ => Except.ok none))).register "net"
        (KicadSE.EParser.mk "net" (fun _ => Except.ok (some 7)))).parse_element
      (KicadSE.SExpr.list [KicadSE.SExpr.sym "net"]) =
    (KicadSE.EParser.mk "net"
      (fun _ => Except.ok (some 7))).parse [KicadSE.SExpr.sym "net"] :=
  (C10_register_replaces Nat KicadSE.Registry.empty "net"
    (KicadSE.EParser.mk "net" (fun _ => Except.ok none))
    (KicadSE.EParser.mk "net" (fun _ => Except.ok (some 7)))).2
    (KicadSE.SExpr.sym "net") [] rfl

/-- Whenever the via parser succeeds, the via's layer list is exactly
`viaLayersOf` of the `layers` sub-element lookup. -/
theorem viaParseElement_layers (fresh : String) (e : List KicadSE.SExpr)
    (v : KicadSE.Via)
    (h : KicadSE.viaParseElement fresh e = .ok (some v)) :
    ∃ lE, KicadSE.find_element e "layers" = .ok lE ∧
      v.layers = KicadSE.viaLayersOf lE := by
  unfold KicadSE.viaParseElement at h
  obtain ⟨atE, hat, h⟩ := bind_ok_inv h
  split at h
  case _ =>
    obtain ⟨x, _, h⟩ := bind_ok_inv h
    obtain ⟨y, _, h⟩ := bind_ok_inv h
    obtain ⟨sizeE, _, h⟩ := bind_ok_inv h
    obtain ⟨size, _, h⟩ := bind_ok_inv h
    obtain ⟨drillE, _, h⟩ := bind_ok_inv h
    obtain ⟨drill, _, h⟩ := bind_ok_inv h
    obtain ⟨lE, hlE, h⟩ := bind_ok_inv h
    obtain ⟨netE, _, h⟩ := bind_ok_inv h
    obtain ⟨net, _, h⟩ := bind_ok_inv h
    obtain ⟨uuidE, _, h⟩ := bind_ok_inv h
    obtain ⟨uuid, _, h⟩ := bind_ok_inv h
    refine ⟨lE, hlE, ?_⟩
    injection h with h1
    injection h1 with h2
    rw [← h2]
  all_goals cases h

/-- Whenever the pad parser succeeds, the pad's drill is exactly the
result of the drill branch on the `drill` sub-element lookup. -/
theorem parse_pad_drill_of (fresh : String) (e : List KicadSE.SExpr)
    (p : KicadSE.Pad) (h : KicadSE.parse_pad fresh e = .ok (some p)) :
    ∃ dE dr, KicadSE.find_element e "drill" = .ok dE ∧
      KicadSE.padDrillOf dE = .ok dr ∧ p.drill = dr := by
  unfold KicadSE.parse_pad at h
  split at h
  case _ =>
    obtain ⟨atE, _, h⟩ := bind_ok_inv h
    obtain ⟨position, _, h⟩ := bind_ok_inv h
    obtain ⟨sizeE, _, h⟩ := bind_ok_inv h
    obtain ⟨size, _, h⟩ := bind_ok_inv h
    obtain ⟨layersE, _, h⟩ := bind_ok_inv h
    obtain ⟨dE, hdE, h⟩ := bind_ok_inv h
    obtain ⟨dr, hdr, h⟩ := bind_ok_inv h
    obtain ⟨netE, _, h⟩ := bind_ok_inv h
    obtain ⟨rrE, _, h⟩ := bind_ok_inv h
    obtain ⟨rr, _, h⟩ := bind_ok_inv h
    obtain ⟨uuidE, _, h⟩ := bind_ok_inv h
    obtain ⟨uuid, _, h⟩ := bind_ok_inv h
    refine ⟨dE, dr, hdE, hdr, ?_⟩
    injection h with h1
    injection h1 with h2
    rw [← h2]
  case _ => cases h

/-- Claim C7: for every pad element that the pad parser accepts, a
`(drill d)` sub-element with a single numeric argument yields the
circular drill `d`; `(drill oval W H)` yields the oval record with width
`W` and height `H`; and an absent drill sub-element leaves the pad with
no drill. -/
theorem C7_pad_drill_cases :
    (∀ (fresh : String) (e : List KicadSE.SExpr) (p : KicadSE.Pad)
      (dv : KicadSE.SExpr) (d : ℚ),
      KicadSE.parse_pad fresh e = .ok (some p) →
      KicadSE.find_element e "drill" =
        .ok (some (.list [.sym "drill", dv])) →
      KicadSE.toFloat dv = .ok d →
      p.drill = some (.circle d)) ∧
    (∀ (fresh : String) (e : List KicadSE.SExpr) (p : KicadSE.Pad)
      (wv hv : KicadSE.SExpr) (w h : ℚ),
      KicadSE.parse_pad fresh e = .ok (some p) →
      KicadSE.find_element e "drill" =
        .ok (some (.list [.sym "drill", .sym "oval", wv, hv])) →
      KicadSE.toFloat wv = .ok w → KicadSE.toFloat hv = .ok h →
      p.drill = some (.oval w h)) ∧
    (∀ (fresh : String) (e : List KicadSE.SExpr) (p : KicadSE.Pad),
      KicadSE.parse_pad fresh e = .ok (some p) →
      KicadSE.find_element e "drill" = .ok none →
      p.drill = none) := by
  refine ⟨?_, ?_, ?_⟩
  · intro fresh e p dv d hp hfind htf
    obtain ⟨dE, dr, hdE, hdr, hpd⟩ := parse_pad_drill_of fresh e p hp
    rw [hfind] at hdE
    injection hdE with h1
    rw [← h1] at hdr
    replace hdr : (KicadSE.toFloat dv >>= fun c =>
        pure (some (KicadSE.Drill.circle c))) = Except.ok dr := hdr
    rw [htf, ebind_ok] at hdr
    injection hdr with h2
    rw [hpd, ← h2]
  · intro fresh e p wv hv w hh hp hfind htw hth
    obtain ⟨dE, dr, hdE, hdr, hpd⟩ := parse_pad_drill_of fresh e p hp
    rw [hfind] at hdE
    injection hdE with h1
    rw [← h1] at hdr
    replace hdr : (KicadSE.toFloat wv >>= fun wq =>
        KicadSE.toFloat hv >>= fun hq =>
        pure (some (KicadSE.Drill.oval wq hq))) = Except.ok dr := hdr
    rw [htw, ebind_ok, hth, ebind_ok] at hdr
    injection hdr with h2
    rw [hpd, ← h2]
  · intro fresh e p hp hfind
    obtain ⟨dE, dr, hdE, hdr, hpd⟩ := parse_pad_drill_of fresh e p hp
    rw [hfind] at hdE
    injection hdE with h1
    rw [← h1] at hdr
    replace hdr : (pure none : Except KicadSE.PyExc
      (Option KicadSE.Drill)) = Except.ok dr := hdr
    injection hdr with h2
    rw [hpd, ← h2]

/-- Claim C7, witness: a concrete through-hole pad with `(drill 1)` gets
the circular drill 1. -/
theorem C7_pad_drill_cases_witness :
    (⟨"1", KicadSE.SExpr.sym "thru_hole", KicadSE.SExpr.sym "circle",
      ⟨0, 0⟩, (1, 1), [], some (KicadSE.Drill.circle 1), none, none, none,
      KicadSE.SExpr.str "u"⟩ : KicadSE.Pad).drill =
      some (KicadSE.Drill.circle 1) :=
  C7_pad_drill_cases.1 "u"
    [KicadSE.SExpr.sym "pad", KicadSE.SExpr.str "1",
     KicadSE.SExpr.sym "thru_hole", KicadSE.SExpr.sym "circle",
     KicadSE.SExpr.list [KicadSE.SExpr.sym "drill", KicadSE.SExpr.float 1]]
    _ (KicadSE.SExpr.float 1) 1 rfl rfl rfl

/-- Claim C9, counterexample: `create_blind_via` with equal start and end
layers produces a via whose ordered layer list has a single entry — the
system can produce a `Via` with fewer than 2 layers. -/
theorem C9_blind_via_single_layer :
    (KicadSE.create_blind_via ⟨0, 0⟩ "F.Cu" "F.Cu" (6/10) (3/10)
      "u").layers = ["F.Cu"] ∧
    ¬(2 ≤ (KicadSE.create_blind_via ⟨0, 0⟩ "F.Cu" "F.Cu" (6/10) (3/10)
      "u").layers.length) := by
  constructor
  · rfl
  · decide

/-- Claim C9, amended: a parsed via whose `layers` sub-element is absent
defaults to the two-layer span `[F.Cu, B.Cu]`, and `create_via` /
`create_through_via` default likewise; but a via element's `layers`
sub-element is copied verbatim (however many layers it lists), and
`create_blind_via` with equal start and end layer yields a single-layer
via, so the ≥2 bound is not an invariant of every produced via. -/
theorem C9_via_layer_span :
    (∀ (fresh : String) (e : List KicadSE.SExpr) (v : KicadSE.Via),
      KicadSE.viaParseElement fresh e = .ok (some v) →
      KicadSE.find_element e "layers" = .ok none →
      v.layers = ["F.Cu", "B.Cu"]) ∧
    (∀ (fresh : String) (e : List KicadSE.SExpr) (v : KicadSE.Via)
      (hd : KicadSE.SExpr) (ls : List KicadSE.SExpr),
      KicadSE.viaParseElement fresh e = .ok (some v) →
      KicadSE.find_element e "layers" = .ok (some (.list (hd :: ls))) →
      v.layers = ls.map KicadSE.pyStr) ∧
    (∀ (pos : KicadSE.Point) (s d : ℚ) (net : Option Int)
      (nn : Option String) (fresh : String),
      (KicadSE.create_via pos s d none net nn fresh).layers =
        ["F.Cu", "B.Cu"]) ∧
    (∀ (pos : KicadSE.Point) (s d : ℚ) (fresh : String),
      (KicadSE.create_through_via pos s d fresh).layers =
        ["F.Cu", "B.Cu"]) ∧
    (∀ (pos : KicadSE.Point) (fl tl : String) (s d : ℚ) (fresh : String),
      ¬(tl = fl) →
      (KicadSE.create_blind_via pos fl tl s d fresh).layers = [fl, tl]) := by
  refine ⟨?_, ?_, ?_, ?_, ?_⟩
  · intro fresh e v hp hfind
    obtain ⟨lE, hlE, hv⟩ := viaParseElement_layers fresh e v hp
    rw [hfind] at hlE
    injection hlE with h1
    rw [hv, ← h1]
    rfl
  · intro fresh e v hd ls hp hfind
    obtain ⟨lE, hlE, hv⟩ := viaParseElement_layers fresh e v hp
    rw [hfind] at hlE
    injection hlE with h1
    rw [hv, ← h1]
    rfl
  · intro pos s d net nn fresh
    rfl
  · intro pos s d fresh
    rfl
  · intro pos fl tl s d fresh hne
    unfold KicadSE.create_blind_via
    rw [if_neg hne]
    rfl

/-- Claim C9, witness: parsing a via element with no `layers` sub-element
yields the default two-layer span. -/
theorem C9_via_layer_span_witness :
    (⟨⟨1, 2⟩, 8/10, 4/10, ["F.Cu", "B.Cu"], none, none,
      KicadSE.SExpr.str "u"⟩ : KicadSE.Via).layers = ["F.Cu", "B.Cu"] :=
  C9_via_layer_span.1 "u"
    [KicadSE.SExpr.sym "via",
     KicadSE.SExpr.list [KicadSE.SExpr.sym "at", KicadSE.SExpr.int 1,
       KicadSE.SExpr.int 2]]
    _ rfl rfl
